import Mathlib

set_option maxRecDepth 8000

/-!
Shallow embedding of the evm_Ink_Rs batch transaction transmitter
(src/src/main.rs, src/src/lib.rs), together with proofs about its
template engine, identifier sequencer, batch dispatcher and account
iterator.

Machine integers (`u64`, the `U256` nonce) are modelled as `Nat` with
explicit checked arithmetic: an operation that would overflow in Rust
(a panic in debug builds, and on `U256` in all builds) is modelled as
`Option.none`.  Fallible code returns `Option`/`Except`.  String
primitives (`replace`, `split`, `starts_with`, `trim`, `lines`) are
re-implemented over `List Char` with structural (fuel) recursion so
that every definition evaluates by kernel reduction.
-/

namespace EvmInk

/-- Largest representable `u64` value. -/
def u64Max : Nat := 2 ^ 64 - 1

/-- Largest representable `U256` value. -/
def u256Max : Nat := 2 ^ 256 - 1

/-- Checked `u64` addition: Rust `a + b`, failing on overflow. -/
def checked_add (a b : Nat) : Option Nat :=
  if a + b ≤ u64Max then some (a + b) else none

/-- Checked `u64` subtraction: Rust `a - b`, failing on underflow. -/
def checked_sub (a b : Nat) : Option Nat :=
  if b ≤ a then some (a - b) else none

/-- Checked `U256` addition (used for the nonce). -/
def checked_add256 (a b : Nat) : Option Nat :=
  if a + b ≤ u256Max then some (a + b) else none

/-- Whether the first list begins with the second (Rust `starts_with`). -/
def listStartsWith : List Char → List Char → Bool
  | _, [] => true
  | [], _ :: _ => false
  | a :: as, b :: bs => a == b && listStartsWith as bs

/-- Fueled worker for `strReplace`; the fuel is the input length, which
always suffices because each step consumes at least one character. -/
def replaceFuel (pat rep : List Char) : Nat → List Char → List Char
  | _, [] => []
  | 0, l => l
  | fuel + 1, c :: cs =>
    if pat.length != 0 && listStartsWith (c :: cs) pat then
      rep ++ replaceFuel pat rep fuel ((c :: cs).drop pat.length)
    else
      c :: replaceFuel pat rep fuel cs

/-- Rust `str::replace`: replace every non-overlapping occurrence of
`pat` in `s` by `rep`, left to right.  (The source only ever replaces
non-empty patterns, so the empty pattern case is irrelevant here.) -/
def strReplace (s pat rep : String) : String :=
  ⟨replaceFuel pat.data rep.data s.data.length s.data⟩

/-- Fueled worker for `strSplitOn`; `acc` holds the current piece reversed. -/
def splitOnFuel (sep : List Char) : Nat → List Char → List Char → List (List Char)
  | _, acc, [] => [acc.reverse]
  | 0, acc, l => [acc.reverse ++ l]
  | fuel + 1, acc, c :: cs =>
    if sep.length != 0 && listStartsWith (c :: cs) sep then
      acc.reverse :: splitOnFuel sep fuel [] ((c :: cs).drop sep.length)
    else
      splitOnFuel sep fuel (c :: acc) cs

/-- Rust `str::split` on a non-empty literal separator, collected into a
list; always returns at least one (possibly empty) piece. -/
def strSplitOn (s sep : String) : List String :=
  (splitOnFuel sep.data s.data.length [] s.data).map String.mk

/-- Rust `str::starts_with` for string literals. -/
def strStartsWith (s p : String) : Bool :=
  listStartsWith s.data p.data

/-- ASCII whitespace test; Rust `trim` uses Unicode `White_Space`, of
which only the ASCII part is relevant to the inputs modelled here. -/
def isWS (c : Char) : Bool :=
  c == ' ' || c == '\t' || c == '\r' || c == '\n'

/-- Rust `str::trim` (over the ASCII whitespace characters). -/
def strTrim (s : String) : String :=
  ⟨((s.data.dropWhile isWS).reverse.dropWhile isWS).reverse⟩

/-- Worker for `rust_lines`: pieces of a split on `'\n'`; every piece but
the last was followed by a newline, so its trailing `'\r'` (if any) is
dropped; a trailing empty piece is dropped. -/
def rustLinesAux : List String → List String
  | [] => []
  | [last] => if last = "" then [] else [last]
  | p :: ps =>
      (if listStartsWith p.data.reverse ['\r'] then ⟨p.data.dropLast⟩ else p) :: rustLinesAux ps

/-- Rust `str::lines`: split at `\n` or `\r\n`; the final line ending is
optional. -/
def rust_lines (s : String) : List String :=
  rustLinesAux (strSplitOn s "\n")

/-- Lowercase hexadecimal digit for a value below 16. -/
def hexChar (n : Nat) : Char :=
  if n < 10 then Char.ofNat (48 + n) else Char.ofNat (87 + n)

/-- Two lowercase hex digits of one byte. -/
def byteHex (b : Nat) : List Char :=
  [hexChar (b / 16), hexChar (b % 16)]

/-- ethers `hex::encode_prefixed`: `0x` followed by the lowercase hex
digits of the bytes. -/
def hexEncodePrefixed (bs : List Nat) : String :=
  "0x" ++ String.mk (bs.flatMap byteHex)

/-- Value of one hexadecimal digit, accepting both cases. -/
def hexDigitVal (c : Char) : Option Nat :=
  if '0' ≤ c ∧ c ≤ '9' then some (c.toNat - 48)
  else if 'a' ≤ c ∧ c ≤ 'f' then some (c.toNat - 87)
  else if 'A' ≤ c ∧ c ≤ 'F' then some (c.toNat - 55)
  else none

/-- Decode an even-length sequence of hex digits into bytes. -/
def hexPairs? : List Char → Option (List Nat)
  | [] => some []
  | [_] => none
  | c1 :: c2 :: rest =>
    match hexDigitVal c1, hexDigitVal c2, hexPairs? rest with
    | some h, some l, some t => some ((h * 16 + l) :: t)
    | _, _, _ => none

/-- ethers `Bytes::from_str`: strip an optional `0x` prefix, then decode
hex pairs; fails on odd length or a non-hex character. -/
def hexDecode? (s : String) : Option (List Nat) :=
  match s.data with
  | '0' :: 'x' :: rest => hexPairs? rest
  | l => hexPairs? l

/-- UTF-8 encoding of one scalar value (Rust `str::as_bytes`). -/
def charUtf8 (c : Char) : List Nat :=
  let n := c.toNat
  if n < 0x80 then [n]
  else if n < 0x800 then [0xC0 + n / 0x40, 0x80 + n % 0x40]
  else if n < 0x10000 then
    [0xE0 + n / 0x1000, 0x80 + n / 0x40 % 0x40, 0x80 + n % 0x40]
  else
    [0xF0 + n / 0x40000, 0x80 + n / 0x1000 % 0x40, 0x80 + n / 0x40 % 0x40, 0x80 + n % 0x40]

/-- UTF-8 bytes of a string. -/
def utf8Bytes (s : String) : List Nat :=
  s.data.flatMap charUtf8

/-- The running identifier (`Id` in main.rs / lib.rs): current value,
optional bounds, and the literal bracketed text matched in the template. -/
structure Id where
  id : Nat
  start_id : Option Nat
  end_id : Option Nat
  match_id : String
deriving DecidableEq

/-- The campaign configuration (`Config` in src/src/lib.rs; the duplicate
in src/src/main.rs has the same fields except `value`, `batch_size` and
`interval`).  The Rust field `prefix` is called `pfx` here because
`prefix` is not a usable Lean identifier; the `f64` fields are modelled
as the exact decimal numbers they denote. -/
structure Config where
  pfx : String
  rpc_url : String
  private_key : String
  address : String
  to_address : Option String
  max_fee_per_gas : ℚ
  max_priority_fee_per_gas : Option ℚ
  gas_limit : Nat
  count : Nat
  data : String
  hex_text : Option String
  id : Option Id
  value : ℚ
  batch_size : Nat
  interval : ℚ
deriving DecidableEq

/-- Gas price data (`GasPrice` in src/src/lib.rs; the duplicate in
main.rs lacks the `value` field). -/
structure GasPrice where
  eip1559 : Bool
  max_fee_per_gas : Nat
  max_priority_fee_per_gas : Nat
  value : Nat
deriving DecidableEq

/-- Config.set_id: `self.id.clone().unwrap()` panics when `id` is absent. -/
def Config.set_id (cfg : Config) (n : Nat) : Option Config :=
  match cfg.id with
  | none => none
  | some i => some { cfg with id := some { i with id := n } }

/-- Config.auto_set_id: advance the identifier, `current + 1` when
`start_id` is present, `current - 1` otherwise (checked `u64` arithmetic). -/
def Config.auto_set_id (cfg : Config) : Option Config :=
  match cfg.id with
  | none => none
  | some i =>
    match i.start_id with
    | some _ =>
      match checked_add i.id 1 with
      | none => none
      | some n => cfg.set_id n
    | none =>
      match checked_sub i.id 1 with
      | none => none
      | some n => cfg.set_id n

/-- Config.process_text: replace `[address]`, then (when an id is
present) replace the matched marker by the decimal current id and
advance the id. -/
def Config.process_text (cfg : Config) : Option (String × Config) :=
  let text := strReplace cfg.data "[address]" cfg.address
  match cfg.id with
  | none => some (text, cfg)
  | some i =>
    match cfg.auto_set_id with
    | none => none
    | some cfg' => some (strReplace text i.match_id (Nat.repr i.id), cfg')

/-- Config.get_hex_text: return `data` verbatim when it starts with
`0x`; otherwise expand the template and hex-encode `prefix ++ expanded`. -/
def Config.get_hex_text (cfg : Config) : Option (String × Config) :=
  if strStartsWith cfg.data "0x" then some (cfg.data, cfg)
  else
    match cfg.process_text with
    | none => none
    | some (d, cfg') => some (hexEncodePrefixed (utf8Bytes (cfg'.pfx ++ d)), cfg')

/-- Attempt to match the regex `\[(\d+)?-(\d+)?]` at the head of the
list.  On success, returns the two optional digit groups and the whole
matched text.  For this pattern, leftmost-first matching with greedy
groups reduces to: after `[`, the maximal digit run must be followed by
`-`, and after `-` the maximal digit run must be followed by `]`; a
group is absent exactly when its run is empty.  (`\d` is Unicode-aware
in the Rust regex crate; inputs are modelled over ASCII digits.) -/
def matchMarkerAt : List Char → Option (Option String × Option String × String)
  | '[' :: rest =>
    let p1 := rest.span Char.isDigit
    match p1.2 with
    | '-' :: r2 =>
      let p2 := r2.span Char.isDigit
      match p2.2 with
      | ']' :: _ =>
        some (if p1.1.isEmpty then none else some ⟨p1.1⟩,
              if p2.1.isEmpty then none else some ⟨p2.1⟩,
              ⟨'[' :: (p1.1 ++ '-' :: (p2.1 ++ [']']))⟩)
      | _ => none
    | _ => none
  | _ => none

/-- Leftmost match of the bracket regex (`Regex::captures` finds the
first match). -/
def findMarker : List Char → Option (Option String × Option String × String)
  | [] => none
  | c :: cs =>
    match matchMarkerAt (c :: cs) with
    | some r => some r
    | none => findMarker cs

/-- Numeric value of a digit string. -/
def digitsVal (l : List Char) : Nat :=
  l.foldl (fun a c => a * 10 + (c.toNat - 48)) 0

/-- Rust `str::parse::<u64>` on a captured digit group: fails when empty
or above `u64::MAX`. -/
def parse_u64 (s : String) : Option Nat :=
  if s.data.isEmpty then none
  else if digitsVal s.data ≤ u64Max then some (digitsVal s.data) else none

/-- process_id (src/src/main.rs and src/src/lib.rs): parse the first
`[a-b]` / `[a-]` / `[-b]` marker of the template and return the seeded
`Id`, the seed, and the range length.  Returns `none` exactly when the
source panics: `end_id.unwrap()` with both groups unparsed (`[-]`), or
`end - start + 1` under/overflowing `u64`. -/
def process_id (text : String) : Option (Option Id × Option Nat × Nat) :=
  match findMarker text.data with
  | none => some (none, none, u64Max)
  | some (g1, g2, m) =>
    let start_id := g1.bind parse_u64
    let end_id := g2.bind parse_u64
    if start_id.isNone then
      match end_id with
      | none => none
      | some e => some (some ⟨e, start_id, end_id, m⟩, end_id, u64Max)
    else
      match start_id, end_id with
      | some s, none => some (some ⟨s, start_id, end_id, m⟩, start_id, u64Max)
      | some s, some e =>
        match checked_sub e s with
        | none => none
        | some d =>
          match checked_add d 1 with
          | none => none
          | some rl => some (some ⟨s, start_id, end_id, m⟩, start_id, rl)
      | none, _ => none

/-- The line `config.count = min(config.count, id_count)` of `main`
(src/src/main.rs:140), composed with `process_id`. -/
def main_effective_count (count : Nat) (text : String) : Option Nat :=
  (process_id text).map (fun r => min count r.2.2)

/-- execution_addresses (src/src/lib.rs): when the `wallets_file`
environment variable is set and non-empty, one configuration per line of
the file, with `private_key` replaced by the trimmed last `----` field;
otherwise the single base configuration.  The environment variable and
the file system are passed in explicitly; an unreadable file
(`readFile = none`) is the source's `process::exit(1)`, modelled as
`none`. -/
def execution_addresses (wallets_file : Option String)
    (readFile : String → Option String) (config : Config) : Option (List Config) :=
  match wallets_file with
  | some wf =>
    if wf = "" then some [config]
    else
      match readFile wf with
      | none => none
      | some content =>
        some ((rust_lines content).map (fun line =>
          let parts := strSplitOn line "----"
          { config with private_key := strTrim (parts.getLastD "") }))
  | none => some [config]

/-- ethers `parse_units` scaled by `10 ^ decimals`, followed by
`U256::from`: the decimal amount is multiplied by `10 ^ decimals`;
the conversion fails (and `init_gas_price` panics) when the amount has
more fractional digits than `decimals`; a negative in-range amount is
re-interpreted two's-complement by `I256::into_raw`. -/
def parse_units_pow (decimals : Nat) (v : ℚ) : Option Nat :=
  if v.den ∣ 10 ^ decimals then
    let n : Int := v.num * ((10 ^ decimals / v.den : Nat) : Int)
    if 0 ≤ n ∧ n < 2 ^ 256 then some n.toNat
    else if n < 0 ∧ -(2 ^ 255) ≤ n then some (n + 2 ^ 256).toNat
    else none
  else none

/-- Config.init_gas_price (src/src/lib.rs): gwei fields scaled by 10⁹,
the ether `value` scaled by 10¹⁸; EIP-1559 mode iff a priority fee is
configured. -/
def Config.init_gas_price (cfg : Config) : Option GasPrice :=
  match parse_units_pow 9 cfg.max_fee_per_gas with
  | none => none
  | some mf =>
    match (match cfg.max_priority_fee_per_gas with
           | some p => parse_units_pow 9 p
           | none => some 0) with
    | none => none
    | some mp =>
      match parse_units_pow 18 cfg.value with
      | none => none
      | some v => some ⟨cfg.max_priority_fee_per_gas.isSome, mf, mp, v⟩

/-- A built transaction request, before signing: the two shapes
constructed in `mint` (Eip1559TransactionRequest / TransactionRequest).
Addresses are carried as strings, payload bytes as decoded hex. -/
inductive Tx where
  | eip1559 (chain_id : Nat) (sender toAddr : String) (value : Nat)
      (max_fee_per_gas : Nat) (max_priority_fee_per_gas : Nat)
      (gas : Nat) (nonce : Nat) (data : List Nat) : Tx
  | legacy (chain_id : Nat) (sender toAddr : String) (value : Nat)
      (nonce : Nat) (data : List Nat) (gas : Nat) (gas_price : Nat) : Tx
deriving DecidableEq

/-- Nonce field of a built transaction. -/
def Tx.nonce : Tx → Nat
  | .eip1559 _ _ _ _ _ _ _ n _ => n
  | .legacy _ _ _ _ n _ _ _ => n

/-- Value field of a built transaction. -/
def Tx.value : Tx → Nat
  | .eip1559 _ _ _ v _ _ _ _ _ => v
  | .legacy _ _ _ v _ _ _ _ => v

/-- Console log level of the `log` crate. -/
inductive LogLevel where
  | info | warn | error
deriving DecidableEq

/-- Observable events of one `mint` run: the per-round banner, the HTTP
dispatch of a batch (carrying its built transactions), the per-response
log line (level and 1-based absolute transaction index), and an
inter-batch sleep of the given number of seconds. -/
inductive Event where
  | banner (round : Nat) (total : Nat) (csize : Nat) : Event
  | dispatch (txs : List Tx) : Event
  | respLog (lvl : LogLevel) (idx : Nat) : Event
  | sleepEv (seconds : ℚ) : Event
deriving DecidableEq

/-- Transaction builder of `mint` in src/src/main.rs: both branches set
`value(0)`; legacy uses `gas_price = max_fee_per_gas`. -/
def build_tx_main (chain_id : Nat) (sender toAddr : String) (gp : GasPrice)
    (gas_limit : Nat) (nonce : Nat) (bytes : List Nat) : Tx :=
  if gp.eip1559 then
    .eip1559 chain_id sender toAddr 0 gp.max_fee_per_gas gp.max_priority_fee_per_gas
      gas_limit nonce bytes
  else
    .legacy chain_id sender toAddr 0 nonce bytes gas_limit gp.max_fee_per_gas

/-- Modelled from the spec: the transaction builder of the dispatcher
binary that consumes the lib.rs `GasPrice` (whose `value` field has no
consumer under src/) — identical to `build_tx_main` except that both
transaction shapes carry `value = gas_price.value` (§4.3 field lists). -/
def build_tx_dispatch (chain_id : Nat) (sender toAddr : String) (gp : GasPrice)
    (gas_limit : Nat) (nonce : Nat) (bytes : List Nat) : Tx :=
  if gp.eip1559 then
    .eip1559 chain_id sender toAddr gp.value gp.max_fee_per_gas gp.max_priority_fee_per_gas
      gas_limit nonce bytes
  else
    .legacy chain_id sender toAddr gp.value nonce bytes gas_limit gp.max_fee_per_gas

/-- Inner loop of one batch round (`for _ in start..end` in `mint`): per
slot, expand the template, decode the payload (`Bytes::from_str`), build
the transaction via `mk`, append it, and increment the nonce.  `none`
models a panic (template under/overflow, nonce overflow) and, for
uniformity, the `?`-propagated hex decoding error. -/
def build_batch (mk : Nat → List Nat → Tx) :
    Nat → Config → Nat → Option (List Tx × Config × Nat)
  | 0, cfg, nonce => some ([], cfg, nonce)
  | k + 1, cfg, nonce =>
    match cfg.get_hex_text with
    | none => none
    | some (d, cfg') =>
      match hexDecode? d with
      | none => none
      | some bytes =>
        match checked_add256 nonce 1 with
        | none => none
        | some n' =>
          match build_batch mk k cfg' n' with
          | none => none
          | some (txs, cfgF, nF) => some (mk nonce bytes :: txs, cfgF, nF)

/-- The response-draining loop: one log line per response, in response
order, successes at info level, per-entry RPC errors at error level,
tagged with the absolute index `batchStart + k + 1`. -/
def respLogs (batchStart : Nat) : Nat → List (Except String String) → List Event
  | _, [] => []
  | k, .ok _ :: rs => .respLog .info (batchStart + k + 1) :: respLogs batchStart (k + 1) rs
  | k, .error _ :: rs => .respLog .error (batchStart + k + 1) :: respLogs batchStart (k + 1) rs

/-- Round loop of `mint` in src/src/main.rs over the remaining round
indices, threading the mutable config and nonce.  `net i wires` is the
HTTP dispatch of round `i` (`execute_batch`): `Except.error` is a
transport failure, which the source propagates with `?`; a successful
response is drained into `respLogs`.  The hardcoded group size is 100. -/
def mint_loop (sign : Tx → String)
    (net : Nat → List String → Except String (List (Except String String)))
    (mk : Nat → List Nat → Tx) (bc : Nat) :
    List Nat → Config → Nat → Option (Except String (List Event × Nat))
  | [], _, nonce => some (.ok ([], nonce))
  | i :: rest, cfg, nonce =>
    let s := i * 100
    let e := min ((i + 1) * 100) cfg.count
    match build_batch mk (e - s) cfg nonce with
    | none => none
    | some (txs, cfg', n') =>
      match net i (txs.map sign) with
      | .error er => some (.error er)
      | .ok rs =>
        match mint_loop sign net mk bc rest cfg' n' with
        | none => none
        | some (.error er) => some (.error er)
        | some (.ok (evs, nF)) =>
          some (.ok (.banner (i + 1) bc (e - s) :: .dispatch txs ::
                      (respLogs s 0 rs ++ evs), nF))

/-- mint (src/src/main.rs:211): `batch_size = 100` is a local constant;
`batch_count = (count + batch_size - 1) / batch_size` in checked `u64`
arithmetic; then the round loop.  The signer and the network are passed
in as oracles; the trace of events and the final nonce are returned. -/
def mint (sign : Tx → String)
    (net : Nat → List String → Except String (List (Except String String)))
    (chain_id : Nat) (sender toAddr : String) (gp : GasPrice) (cfg : Config)
    (nonce : Nat) : Option (Except String (List Event × Nat)) :=
  match checked_add cfg.count 100 with
  | none => none
  | some t =>
    match checked_sub t 1 with
    | none => none
    | some t' =>
      mint_loop sign net (build_tx_main chain_id sender toAddr gp cfg.gas_limit)
        (t' / 100) (List.range (t' / 100)) cfg nonce

/-- Modelled from the spec: round loop of the Batch Dispatcher (§4.4) of
the dispatcher binary that is not under src/ (src/src/main.rs carries an
older duplicate with the group size hardcoded to 100, no `value` and no
sleep; `batch_size` and `interval` are declared in the lib.rs `Config`
with no consumer under src/).  Identical to `mint_loop` except that the
group size is `config.batch_size` and, after draining each group's
responses — including the final group's — it sleeps `interval` seconds. -/
def mint_dispatch_loop (sign : Tx → String)
    (net : Nat → List String → Except String (List (Except String String)))
    (mk : Nat → List Nat → Tx) (bc : Nat) :
    List Nat → Config → Nat → Option (Except String (List Event × Nat))
  | [], _, nonce => some (.ok ([], nonce))
  | i :: rest, cfg, nonce =>
    let s := i * cfg.batch_size
    let e := min ((i + 1) * cfg.batch_size) cfg.count
    match build_batch mk (e - s) cfg nonce with
    | none => none
    | some (txs, cfg', n') =>
      match net i (txs.map sign) with
      | .error er => some (.error er)
      | .ok rs =>
        match mint_dispatch_loop sign net mk bc rest cfg' n' with
        | none => none
        | some (.error er) => some (.error er)
        | some (.ok (evs, nF)) =>
          some (.ok (.banner (i + 1) bc (e - s) :: .dispatch txs ::
                      (respLogs s 0 rs ++ (.sleepEv cfg.interval :: evs)), nF))

/-- Modelled from the spec: the Batch Dispatcher (§4.4) driven by the
configured `batch_size`, with `batch_count = ceil(effective_count /
batch_size)` computed, as in the source's duplicate, by
`(count + batch_size - 1) / batch_size` in checked `u64` arithmetic. -/
def mint_dispatch (sign : Tx → String)
    (net : Nat → List String → Except String (List (Except String String)))
    (chain_id : Nat) (sender toAddr : String) (gp : GasPrice) (cfg : Config)
    (nonce : Nat) : Option (Except String (List Event × Nat)) :=
  match checked_add cfg.count cfg.batch_size with
  | none => none
  | some t =>
    match checked_sub t 1 with
    | none => none
    | some t' =>
      if cfg.batch_size = 0 then none
      else
        mint_dispatch_loop sign net
          (build_tx_dispatch chain_id sender toAddr gp cfg.gas_limit)
          (t' / cfg.batch_size) (List.range (t' / cfg.batch_size)) cfg nonce

/-- Iterated `process_text`: the list of expansions of `k` consecutive
calls, threading the mutated config. -/
def expand_seq (cfg : Config) : Nat → Option (List String × Config)
  | 0 => some ([], cfg)
  | k + 1 =>
    match cfg.process_text with
    | none => none
    | some (t, cfg') =>
      match expand_seq cfg' k with
      | none => none
      | some (ts, cfgF) => some (t :: ts, cfgF)

/-- Iterated `get_hex_text`: the payloads of `k` consecutive calls. -/
def hex_seq (cfg : Config) : Nat → Option (List String × Config)
  | 0 => some ([], cfg)
  | k + 1 =>
    match cfg.get_hex_text with
    | none => none
    | some (d, cfg') =>
      match hex_seq cfg' k with
      | none => none
      | some (ds, cfgF) => some (d :: ds, cfgF)

/-- The batch groups of a trace, in dispatch order. -/
def dispatches : List Event → List (List Tx)
  | [] => []
  | .dispatch txs :: es => txs :: dispatches es
  | _ :: es => dispatches es

/-- All transactions of a trace, in issue order. -/
def allTxs (es : List Event) : List Tx :=
  (dispatches es).foldr (· ++ ·) []

/-- The response-log events of a trace, in order. -/
def logsProj : List Event → List Event
  | [] => []
  | .respLog lvl i :: es => .respLog lvl i :: logsProj es
  | _ :: es => logsProj es

/-- The dispatch and sleep events of a trace, in order. -/
def dsProj : List Event → List Event
  | [] => []
  | .dispatch txs :: es => .dispatch txs :: dsProj es
  | .sleepEv q :: es => .sleepEv q :: dsProj es
  | _ :: es => dsProj es

/-- A strictly alternating dispatch/sleep pattern: every batch group is
immediately followed by a sleep of `q` seconds, the final group
included. -/
def altBlocks (q : ℚ) : List (List Tx) → List Event
  | [] => []
  | b :: bs => .dispatch b :: .sleepEv q :: altBlocks q bs

instance {ε α : Type} [DecidableEq ε] [DecidableEq α] : DecidableEq (Except ε α) := fun a b =>
  match a, b with
  | .ok x, .ok y => if h : x = y then .isTrue (by rw [h]) else .isFalse (by simp [h])
  | .error x, .error y => if h : x = y then .isTrue (by rw [h]) else .isFalse (by simp [h])
  | .ok _, .error _ => .isFalse (by simp)
  | .error _, .ok _ => .isFalse (by simp)

/-! ## Helper lemmas: the template engine -/

/-- One ascending `process_text` call: the marker is replaced by the
decimal current id and the id advances to `current + 1`. -/
lemma process_text_asc (cfg : Config) (i : Id) (a : Nat) (hid : cfg.id = some i)
    (hs : i.start_id = some a) (hov : i.id + 1 ≤ u64Max) :
    cfg.process_text =
      some (strReplace (strReplace cfg.data "[address]" cfg.address) i.match_id (Nat.repr i.id),
        { cfg with id := some { i with id := i.id + 1 } }) := by
  simp [Config.process_text, Config.auto_set_id, Config.set_id, checked_add, hid, hs, hov]

/-- One descending `process_text` call from a positive current id. -/
lemma process_text_desc (cfg : Config) (i : Id) (hid : cfg.id = some i)
    (hs : i.start_id = none) (h1 : 1 ≤ i.id) :
    cfg.process_text =
      some (strReplace (strReplace cfg.data "[address]" cfg.address) i.match_id (Nat.repr i.id),
        { cfg with id := some { i with id := i.id - 1 } }) := by
  simp [Config.process_text, Config.auto_set_id, Config.set_id, checked_sub, hid, hs, h1]

/-- A descending `process_text` call from current id 0 underflows. -/
lemma process_text_desc_zero (cfg : Config) (i : Id) (hid : cfg.id = some i)
    (hs : i.start_id = none) (h0 : i.id = 0) :
    cfg.process_text = none := by
  simp [Config.process_text, Config.auto_set_id, Config.set_id, checked_sub, hid, hs, h0]

/-- Iterated ascending expansion: the `j`-th (0-based) expansion
substitutes `seed + j` and the id ends at `seed + k`. -/
lemma expand_seq_asc : ∀ (k : Nat) (cfg : Config) (i : Id) (a : Nat),
    cfg.id = some i → i.start_id = some a → i.id + k ≤ u64Max →
    expand_seq cfg k =
      some ((List.range k).map (fun j =>
          strReplace (strReplace cfg.data "[address]" cfg.address) i.match_id
            (Nat.repr (i.id + j))),
        { cfg with id := some { i with id := i.id + k } })
  | 0, cfg, i, a, hid, hs, _ => by
    simp [expand_seq, ← hid]
  | k + 1, cfg, i, a, hid, hs, hov => by
    have h1 : i.id + 1 ≤ u64Max := by omega
    have ih := expand_seq_asc k { cfg with id := some { i with id := i.id + 1 } }
      { i with id := i.id + 1 } a rfl hs (by simpa using by omega)
    simp only [expand_seq, process_text_asc cfg i a hid hs h1, ih, Option.some.injEq,
      Prod.mk.injEq]
    constructor
    · rw [List.range_succ_eq_map, List.map_cons, List.map_map]
      simp only [Function.comp, Nat.add_zero, List.cons.injEq, true_and]
      apply List.map_congr_left
      intro j _
      have h2 : i.id + 1 + j = i.id + (j + 1) := by omega
      simp only [h2, Function.comp_apply, Nat.succ_eq_add_one]
    · have h3 : i.id + 1 + k = i.id + (k + 1) := by omega
      rw [h3]

/-- Iterated descending expansion from seed `c` fails as soon as more
than `c` expansions are requested: the `(c+1)`-th advance underflows. -/
lemma expand_seq_desc_none : ∀ (k : Nat) (cfg : Config) (i : Id),
    cfg.id = some i → i.start_id = none → i.id < k → expand_seq cfg k = none
  | 0, _, _, _, _, h => absurd h (Nat.not_lt_zero _)
  | k + 1, cfg, i, hid, hs, hlt => by
    rcases Nat.eq_zero_or_pos i.id with h0 | h1
    · simp [expand_seq, process_text_desc_zero cfg i hid hs h0]
    · have ih := expand_seq_desc_none k { cfg with id := some { i with id := i.id - 1 } }
        { i with id := i.id - 1 } rfl hs (by simp; omega)
      simp [expand_seq, process_text_desc cfg i hid hs h1, ih]

/-! ## Claims about the template engine and the identifier sequencer -/

/-- C1: every `process_text` call with an id marker substitutes the
decimal form of the current id and then advances the id by exactly one
step — `current + 1` when `start` is present, `current − 1` otherwise —
and, for an ascending marker seeded at `s`, the `k`-th expansion
(1-based, index `j = k − 1` below) substitutes `s + k − 1`, with no
clamping against the `end` bound (the conclusion holds for every
`i.end_id`). -/
theorem process_text_substitutes_and_advances :
    (∀ (cfg : Config) (i : Id) (a : Nat), cfg.id = some i → i.start_id = some a →
      i.id + 1 ≤ u64Max →
      cfg.process_text =
        some (strReplace (strReplace cfg.data "[address]" cfg.address) i.match_id
            (Nat.repr i.id),
          { cfg with id := some { i with id := i.id + 1 } }))
    ∧ (∀ (cfg : Config) (i : Id), cfg.id = some i → i.start_id = none → 1 ≤ i.id →
      cfg.process_text =
        some (strReplace (strReplace cfg.data "[address]" cfg.address) i.match_id
            (Nat.repr i.id),
          { cfg with id := some { i with id := i.id - 1 } }))
    ∧ (∀ (k : Nat) (cfg : Config) (i : Id) (a : Nat),
      cfg.id = some i → i.start_id = some a → i.id + k ≤ u64Max →
      expand_seq cfg k =
        some ((List.range k).map (fun j =>
            strReplace (strReplace cfg.data "[address]" cfg.address) i.match_id
              (Nat.repr (i.id + j))),
          { cfg with id := some { i with id := i.id + k } })) :=
  ⟨process_text_asc, process_text_desc, expand_seq_asc⟩

/-- Sample configuration for the ascending-marker witness. -/
def cfgC1 : Config :=
  { pfx := "data:,", rpc_url := "r", private_key := "k", address := "0xabc",
    to_address := none, max_fee_per_gas := 1, max_priority_fee_per_gas := none,
    gas_limit := 50000, count := 10, data := "id:[1200-1202],amt:1000",
    hex_text := none, id := some ⟨1200, some 1200, some 1202, "[1200-1202]"⟩,
    value := 0, batch_size := 100, interval := 0 }

/-- Witness for C1: three ascending expansions of `[1200-1202]`
substitute 1200, 1201, 1202 (and the seed+k−1 law continues past the
end bound, e.g. a fourth expansion would substitute 1203). -/
theorem process_text_substitutes_and_advances_witness :
    expand_seq cfgC1 4 =
      some ((List.range 4).map (fun j =>
          strReplace (strReplace cfgC1.data "[address]" cfgC1.address) "[1200-1202]"
            (Nat.repr (1200 + j))),
        { cfgC1 with id := some ⟨1204, some 1200, some 1202, "[1200-1202]"⟩ }) :=
  process_text_substitutes_and_advances.2.2 4 cfgC1
    ⟨1200, some 1200, some 1202, "[1200-1202]"⟩ 1200 rfl rfl (by decide)

/-- Inversion principle for a successful `process_id`: either no marker
matched (unbounded range), or the returned `Id` is seeded from `end`
with an unbounded range (descending), or seeded from `start` with the
range unbounded (no `end`) or equal to `end − start + 1`. -/
lemma process_id_inv (text : String) (ido : Option Id) (cur : Option Nat) (rl : Nat)
    (h : process_id text = some (ido, cur, rl)) :
    (ido = none ∧ cur = none ∧ rl = u64Max)
    ∨ (∃ i, ido = some i ∧
        ((i.start_id = none ∧ ∃ e, i.end_id = some e ∧ i.id = e ∧ cur = some e ∧ rl = u64Max)
         ∨ (∃ s, i.start_id = some s ∧ i.id = s ∧ cur = some s ∧
             ((i.end_id = none ∧ rl = u64Max)
              ∨ (∃ e, i.end_id = some e ∧ s ≤ e ∧ rl = e - s + 1))))) := by
  unfold process_id at h
  rcases hf : findMarker text.data with _ | ⟨g1, g2, m⟩ <;> rw [hf] at h
  · left
    simp only [Option.some.injEq, Prod.mk.injEq] at h
    exact ⟨h.1.symm, h.2.1.symm, h.2.2.symm⟩
  · right
    dsimp only at h
    by_cases h1 : (g1.bind parse_u64).isNone
    · rw [if_pos h1] at h
      rcases he : g2.bind parse_u64 with _ | e <;> rw [he] at h
      · exact absurd h (by simp)
      · simp only [Option.some.injEq, Prod.mk.injEq] at h
        refine ⟨_, h.1.symm, Or.inl ⟨?_, e, rfl, rfl, h.2.1.symm, h.2.2.symm⟩⟩
        simpa using h1
    · rw [if_neg h1] at h
      rcases hs1 : g1.bind parse_u64 with _ | s <;> rw [hs1] at h
      · rw [hs1] at h1; simp at h1
      · rcases he : g2.bind parse_u64 with _ | e <;> rw [he] at h <;> dsimp only at h
        · simp only [Option.some.injEq, Prod.mk.injEq] at h
          exact ⟨_, h.1.symm, Or.inr ⟨s, rfl, rfl, h.2.1.symm, Or.inl ⟨rfl, h.2.2.symm⟩⟩⟩
        · rcases hd : checked_sub e s with _ | d <;> rw [hd] at h <;> dsimp only at h
          · exact absurd h (by simp)
          · rcases ha : checked_add d 1 with _ | rl' <;> rw [ha] at h <;> dsimp only at h
            · exact absurd h (by simp)
            · simp only [Option.some.injEq, Prod.mk.injEq] at h
              unfold checked_sub at hd
              unfold checked_add at ha
              have hse : s ≤ e := by
                by_contra hc
                rw [if_neg hc] at hd
                exact Option.noConfusion hd
              rw [if_pos hse] at hd
              refine ⟨_, h.1.symm, Or.inr ⟨s, rfl, rfl, h.2.1.symm,
                Or.inr ⟨e, rfl, hse, ?_⟩⟩⟩
              have hd' : d = e - s := (Option.some.inj hd).symm
              split at ha
              · have : rl' = d + 1 := (Option.some.inj ha).symm
                omega
              · exact Option.noConfusion ha

/-- C10: for a descending identifier (`start` absent, as produced by a
`[-b]` marker) the advance step computes `current − 1` on a `u64` with
no lower bound: one `process_text` call succeeds exactly when
`current ≥ 1`; iterated expansion fails as soon as the requested count
exceeds the seed (so any effective count greater than `b + 1`
underflows); and `process_id` reports the unbounded range `u64::MAX`
for every such marker, so `effective_count` does not prevent this. -/
theorem descending_advance_underflows :
    (∀ (cfg : Config) (i : Id), cfg.id = some i → i.start_id = none →
      ((cfg.process_text).isSome = true ↔ 1 ≤ i.id))
    ∧ (∀ (k : Nat) (cfg : Config) (i : Id), cfg.id = some i → i.start_id = none →
      i.id < k → expand_seq cfg k = none)
    ∧ (∀ (text : String) (i : Id) (cur : Option Nat) (rl : Nat),
      process_id text = some (some i, cur, rl) → i.start_id = none → rl = u64Max) := by
  refine ⟨?_, expand_seq_desc_none, ?_⟩
  · intro cfg i hid hs
    rcases Nat.eq_zero_or_pos i.id with h0 | h1
    · simp [process_text_desc_zero cfg i hid hs h0, h0]
    · simp only [process_text_desc cfg i hid hs h1, Option.isSome_some, true_iff]
      omega
  · intro text i cur rl h hs
    rcases process_id_inv text (some i) cur rl h with ⟨hn, -⟩ | ⟨i', hi', hcase⟩
    · exact Option.noConfusion hn
    · obtain rfl : i = i' := Option.some.inj hi'
      rcases hcase with ⟨-, -, -, -, -, hrl⟩ | ⟨s, hss, -⟩
      · exact hrl
      · rw [hss] at hs; exact Option.noConfusion hs

/-- Sample configuration for the descending-underflow witness:
marker `[-1]`, seeded at 1. -/
def cfgC10 : Config :=
  { pfx := "data:,", rpc_url := "r", private_key := "k", address := "0xabc",
    to_address := none, max_fee_per_gas := 1, max_priority_fee_per_gas := none,
    gas_limit := 50000, count := 3, data := "id:[-1]", hex_text := none,
    id := some ⟨1, none, some 1, "[-1]"⟩,
    value := 0, batch_size := 100, interval := 0 }

/-- Witness for C10: with seed 1, a third expansion underflows while a
first one succeeds. -/
theorem descending_advance_underflows_witness :
    expand_seq cfgC10 3 = none ∧ (Config.process_text cfgC10).isSome := by
  refine ⟨descending_advance_underflows.2.1 3 cfgC10 ⟨1, none, some 1, "[-1]"⟩ rfl rfl
      (by decide),
    (descending_advance_underflows.1 cfgC10 ⟨1, none, some 1, "[-1]"⟩ rfl rfl).mpr
      (by decide)⟩

/-- C4: when `data` begins with the literal `0x`, `get_hex_text` returns
`data` verbatim — no prefix, no `[address]` or marker substitution, the
configuration (including the id) untouched — so all `k` iterated calls
return the same payload. -/
theorem get_hex_text_0x_verbatim :
    (∀ cfg : Config, strStartsWith cfg.data "0x" = true →
      cfg.get_hex_text = some (cfg.data, cfg))
    ∧ (∀ (k : Nat) (cfg : Config), strStartsWith cfg.data "0x" = true →
      hex_seq cfg k = some (List.replicate k cfg.data, cfg)) := by
  have h1 : ∀ cfg : Config, strStartsWith cfg.data "0x" = true →
      cfg.get_hex_text = some (cfg.data, cfg) := by
    intro cfg h
    simp [Config.get_hex_text, h]
  refine ⟨h1, ?_⟩
  intro k
  induction k with
  | zero => intro cfg h; simp [hex_seq]
  | succ k ih => intro cfg h; simp [hex_seq, h1 cfg h, ih cfg h, List.replicate_succ]

/-- Sample configuration for the opaque-payload witness. -/
def cfgC4 : Config :=
  { pfx := "data:,", rpc_url := "r", private_key := "k", address := "0xabc",
    to_address := none, max_fee_per_gas := 1, max_priority_fee_per_gas := none,
    gas_limit := 50000, count := 3, data := "0xdeadbeef", hex_text := none,
    id := some ⟨7, some 7, none, "[7-]"⟩,
    value := 0, batch_size := 100, interval := 0 }

/-- Witness for C4: `0xdeadbeef` is returned verbatim three times, the
id (present but irrelevant) never advanced. -/
theorem get_hex_text_0x_verbatim_witness :
    hex_seq cfgC4 3 = some (["0xdeadbeef", "0xdeadbeef", "0xdeadbeef"], cfgC4) :=
  get_hex_text_0x_verbatim.2 3 cfgC4 (by decide)

/-- C9 (evidence): on a template whose first bracketed match is `[-]`
(both digit groups absent), `process_id` does not treat it as
no-match — it panics (`end_id.unwrap()` on `None`), modelled as `none`,
instead of returning `(None, None, u64::MAX)`. -/
theorem process_id_dash_marker_panics :
    process_id "a[-]b" = none ∧ process_id "a[-]b" ≠ some (none, none, u64Max) := by
  exact ⟨by decide, by decide⟩

/-- C3: the effective transmission count set by `main` is
`min(config.count, range_length)`, where `range_length = end − start + 1`
when the parsed marker carries both bounds, and `u64::MAX` when the
marker carries only one bound or no marker matches. -/
theorem effective_count_is_min :
    ∀ (text : String) (count : Nat) (ido : Option Id) (cur : Option Nat) (rl : Nat),
      process_id text = some (ido, cur, rl) →
      main_effective_count count text = some (min count rl)
      ∧ (∀ i s e, ido = some i → i.start_id = some s → i.end_id = some e →
          rl = e - s + 1)
      ∧ (∀ i, ido = some i → (i.start_id = none ∨ i.end_id = none) → rl = u64Max)
      ∧ (ido = none → rl = u64Max) := by
  intro text count ido cur rl h
  refine ⟨by simp [main_effective_count, h], ?_, ?_, ?_⟩
  · intro i s e hi hsi hei
    rcases process_id_inv text ido cur rl h with ⟨hn, -, -⟩ | ⟨i', hi', hcase⟩
    · rw [hn] at hi; exact Option.noConfusion hi
    · rw [hi'] at hi
      obtain rfl : i' = i := Option.some.inj hi
      rcases hcase with ⟨hnone, -⟩ | ⟨s', hs', -, -, hsub⟩
      · rw [hnone] at hsi; exact Option.noConfusion hsi
      · obtain rfl : s' = s := by rw [hs'] at hsi; exact Option.some.inj hsi
        rcases hsub with ⟨hen, -⟩ | ⟨e', he', -, hrl⟩
        · rw [hen] at hei; exact Option.noConfusion hei
        · obtain rfl : e' = e := by rw [he'] at hei; exact Option.some.inj hei
          exact hrl
  · intro i hi hone
    rcases process_id_inv text ido cur rl h with ⟨hn, -, -⟩ | ⟨i', hi', hcase⟩
    · rw [hn] at hi; exact Option.noConfusion hi
    · rw [hi'] at hi
      obtain rfl : i' = i := Option.some.inj hi
      rcases hcase with ⟨-, -, -, -, -, hrl⟩ | ⟨s', hs', -, -, hsub⟩
      · exact hrl
      · rcases hsub with ⟨-, hrl⟩ | ⟨e', he', -, -⟩
        · exact hrl
        · rcases hone with hc | hc
          · rw [hs'] at hc; exact Option.noConfusion hc
          · rw [he'] at hc; exact Option.noConfusion hc
  · intro hn
    rcases process_id_inv text ido cur rl h with ⟨-, -, hrl⟩ | ⟨i', hi', -⟩
    · exact hrl
    · rw [hi'] at hn; exact Option.noConfusion hn

/-- Witness for C3: for `[1200-1202]` with requested count 10 the
effective count is `min 10 3 = 3`; a single-bound marker gives
`u64::MAX`. -/
theorem effective_count_is_min_witness :
    main_effective_count 10 "id:[1200-1202]" = some (min 10 3)
    ∧ (3 : Nat) = 1202 - 1200 + 1 := by
  have h := effective_count_is_min "id:[1200-1202]" 10
    (some ⟨1200, some 1200, some 1202, "[1200-1202]"⟩) (some 1200) 3 (by decide)
  exact ⟨h.1, h.2.1 ⟨1200, some 1200, some 1202, "[1200-1202]"⟩ 1200 1202 rfl rfl rfl⟩

/-- C8: with `wallets_file` set and non-empty and the file readable, the
account iterator yields exactly one configuration per line, each equal
to the base configuration in every field except `private_key`, which
becomes the trimmed last `----` field of that line. -/
theorem wallets_file_one_config_per_line :
    ∀ (w content : String) (rf : String → Option String) (cfg : Config),
      w ≠ "" → rf w = some content →
      ∃ cfgs, execution_addresses (some w) rf cfg = some cfgs
        ∧ cfgs.length = (rust_lines content).length
        ∧ ∀ (j : Nat) (hj : j < (rust_lines content).length) (hj2 : j < cfgs.length),
            (cfgs.get ⟨j, hj2⟩).private_key
                = strTrim ((strSplitOn ((rust_lines content).get ⟨j, hj⟩) "----").getLastD "")
            ∧ (cfgs.get ⟨j, hj2⟩).pfx = cfg.pfx
            ∧ (cfgs.get ⟨j, hj2⟩).rpc_url = cfg.rpc_url
            ∧ (cfgs.get ⟨j, hj2⟩).address = cfg.address
            ∧ (cfgs.get ⟨j, hj2⟩).to_address = cfg.to_address
            ∧ (cfgs.get ⟨j, hj2⟩).max_fee_per_gas = cfg.max_fee_per_gas
            ∧ (cfgs.get ⟨j, hj2⟩).max_priority_fee_per_gas = cfg.max_priority_fee_per_gas
            ∧ (cfgs.get ⟨j, hj2⟩).gas_limit = cfg.gas_limit
            ∧ (cfgs.get ⟨j, hj2⟩).count = cfg.count
            ∧ (cfgs.get ⟨j, hj2⟩).data = cfg.data
            ∧ (cfgs.get ⟨j, hj2⟩).hex_text = cfg.hex_text
            ∧ (cfgs.get ⟨j, hj2⟩).id = cfg.id
            ∧ (cfgs.get ⟨j, hj2⟩).value = cfg.value
            ∧ (cfgs.get ⟨j, hj2⟩).batch_size = cfg.batch_size
            ∧ (cfgs.get ⟨j, hj2⟩).interval = cfg.interval := by
  intro w content rf cfg hw hrf
  refine ⟨(rust_lines content).map (fun line =>
      { cfg with private_key := strTrim ((strSplitOn line "----").getLastD "") }),
    ?_, by simp, ?_⟩
  · simp [execution_addresses, hw, hrf]
  · intro j hj hj2
    simp [List.get_eq_getElem, List.getElem_map]

/-- Witness for C8: a two-line wallets file with `----`-separated label
fields yields two configurations differing from the base only in
`private_key`. -/
theorem wallets_file_one_config_per_line_witness :
    ∃ cfgs, execution_addresses (some "w.txt") (fun _ => some "a----0xaa\nlbl---- 0xbb \n")
        cfgC1 = some cfgs
      ∧ cfgs.length = (rust_lines "a----0xaa\nlbl---- 0xbb \n").length
      ∧ ∀ (j : Nat) (hj : j < (rust_lines "a----0xaa\nlbl---- 0xbb \n").length)
          (hj2 : j < cfgs.length),
          (cfgs.get ⟨j, hj2⟩).private_key
              = strTrim ((strSplitOn ((rust_lines "a----0xaa\nlbl---- 0xbb \n").get ⟨j, hj⟩)
                  "----").getLastD "")
          ∧ (cfgs.get ⟨j, hj2⟩).pfx = cfgC1.pfx
          ∧ (cfgs.get ⟨j, hj2⟩).rpc_url = cfgC1.rpc_url
          ∧ (cfgs.get ⟨j, hj2⟩).address = cfgC1.address
          ∧ (cfgs.get ⟨j, hj2⟩).to_address = cfgC1.to_address
          ∧ (cfgs.get ⟨j, hj2⟩).max_fee_per_gas = cfgC1.max_fee_per_gas
          ∧ (cfgs.get ⟨j, hj2⟩).max_priority_fee_per_gas = cfgC1.max_priority_fee_per_gas
          ∧ (cfgs.get ⟨j, hj2⟩).gas_limit = cfgC1.gas_limit
          ∧ (cfgs.get ⟨j, hj2⟩).count = cfgC1.count
          ∧ (cfgs.get ⟨j, hj2⟩).data = cfgC1.data
          ∧ (cfgs.get ⟨j, hj2⟩).hex_text = cfgC1.hex_text
          ∧ (cfgs.get ⟨j, hj2⟩).id = cfgC1.id
          ∧ (cfgs.get ⟨j, hj2⟩).value = cfgC1.value
          ∧ (cfgs.get ⟨j, hj2⟩).batch_size = cfgC1.batch_size
          ∧ (cfgs.get ⟨j, hj2⟩).interval = cfgC1.interval :=
  wallets_file_one_config_per_line "w.txt" "a----0xaa\nlbl---- 0xbb \n"
    (fun _ => some "a----0xaa\nlbl---- 0xbb \n") cfgC1 (by decide) rfl

/-! ## Helper lemmas: payload encoding and batch building -/

/-- Sufficient condition for `r` template expansions not to panic: the
payload is opaque (`0x…`, never expanded), or there is no id, or the
checked id advance stays in `u64` range for `r` steps. -/
def idOk (cfg : Config) (r : Nat) : Bool :=
  strStartsWith cfg.data "0x" ||
    match cfg.id with
    | none => true
    | some i =>
      match i.start_id with
      | some _ => decide (i.id + r ≤ u64Max)
      | none => decide (r ≤ i.id)

/-- Sufficient condition for `Bytes::from_str` not to fail on the
payload: an opaque `0x…` payload must itself be valid hex (a templated
payload is hex by construction). -/
def hexOk (cfg : Config) : Bool :=
  !strStartsWith cfg.data "0x" || (hexDecode? cfg.data).isSome

lemma hexDigitVal_hexChar : ∀ n < 16, hexDigitVal (hexChar n) = some n := by decide

lemma hexPairs_byteHex : ∀ bs : List Nat, (∀ b ∈ bs, b < 256) →
    hexPairs? (bs.flatMap byteHex) = some bs := by
  intro bs
  induction bs with
  | nil => intro _; rfl
  | cons b t ih =>
    intro h
    have hb : b < 256 := h b (by simp)
    have h1 : b / 16 < 16 := by omega
    have h2 : b % 16 < 16 := by omega
    show hexPairs? (hexChar (b / 16) :: hexChar (b % 16) :: t.flatMap byteHex) = _
    rw [hexPairs?, hexDigitVal_hexChar _ h1, hexDigitVal_hexChar _ h2,
      ih (fun x hx => h x (by simp [hx]))]
    dsimp only
    have : b / 16 * 16 + b % 16 = b := by omega
    rw [this]

lemma charUtf8_lt : ∀ c : Char, ∀ b ∈ charUtf8 c, b < 256 := by
  intro c b hb
  have hc : c.toNat < 0x110000 := by
    rcases c.valid with h | ⟨-, h⟩
    · exact Nat.lt_trans h (by norm_num)
    · exact h
  unfold charUtf8 at hb
  dsimp only at hb
  split at hb
  · simp at hb; omega
  · split at hb
    · simp at hb; rcases hb with h | h <;> omega
    · split at hb
      · simp at hb; rcases hb with h | h | h <;> omega
      · simp at hb; rcases hb with h | h | h | h <;> omega

lemma utf8Bytes_lt (s : String) : ∀ b ∈ utf8Bytes s, b < 256 := by
  intro b hb
  unfold utf8Bytes at hb
  rcases List.mem_flatMap.mp hb with ⟨c, -, hc⟩
  exact charUtf8_lt c b hc

/-- Round trip: a hex-encoded byte list decodes back to itself. -/
lemma hexDecode_hexEncode (bs : List Nat) (h : ∀ b ∈ bs, b < 256) :
    hexDecode? (hexEncodePrefixed bs) = some bs := by
  show hexPairs? (bs.flatMap byteHex) = some bs
  exact hexPairs_byteHex bs h

/-- One `get_hex_text` call under the `idOk`/`hexOk` invariants: it
succeeds, its payload hex-decodes, the invariants are preserved with one
expansion consumed, and every configuration field except `id` is
untouched. -/
lemma get_hex_text_step (cfg : Config) (r : Nat)
    (hid : idOk cfg (r + 1) = true) (hhex : hexOk cfg = true) :
    ∃ d cfg', cfg.get_hex_text = some (d, cfg')
      ∧ (hexDecode? d).isSome = true
      ∧ idOk cfg' r = true ∧ hexOk cfg' = true
      ∧ cfg'.data = cfg.data ∧ cfg'.count = cfg.count
      ∧ cfg'.batch_size = cfg.batch_size ∧ cfg'.interval = cfg.interval := by
  by_cases h0 : strStartsWith cfg.data "0x"
  · refine ⟨cfg.data, cfg, by simp [Config.get_hex_text, h0], ?_, ?_, hhex, rfl, rfl, rfl, rfl⟩
    · unfold hexOk at hhex
      simpa [h0] using hhex
    · simp [idOk, h0]
  · rcases hidv : cfg.id with _ | i
    · refine ⟨hexEncodePrefixed (utf8Bytes
          (cfg.pfx ++ strReplace cfg.data "[address]" cfg.address)), cfg,
        ?_, ?_, ?_, hhex, rfl, rfl, rfl, rfl⟩
      · simp [Config.get_hex_text, Config.process_text, h0, hidv]
      · rw [hexDecode_hexEncode _ (utf8Bytes_lt _)]; rfl
      · simp [idOk, hidv]
    · rcases hsi : i.start_id with _ | a
      · have h1 : 1 ≤ i.id := by
          unfold idOk at hid
          simp [h0, hidv, hsi] at hid
          omega
        refine ⟨hexEncodePrefixed (utf8Bytes (cfg.pfx ++
            strReplace (strReplace cfg.data "[address]" cfg.address) i.match_id
              (Nat.repr i.id))),
          { cfg with id := some { i with id := i.id - 1 } }, ?_, ?_, ?_, ?_,
          rfl, rfl, rfl, rfl⟩
        · simp only [Config.get_hex_text, h0, Bool.false_eq_true, if_false,
            process_text_desc cfg i hidv hsi h1]
        · rw [hexDecode_hexEncode _ (utf8Bytes_lt _)]; rfl
        · unfold idOk at hid ⊢
          simp [h0, hidv, hsi] at hid ⊢
          omega
        · unfold hexOk at hhex ⊢
          simpa using hhex
      · have h1 : i.id + (r + 1) ≤ u64Max := by
          unfold idOk at hid
          simp [h0, hidv, hsi] at hid
          omega
        refine ⟨hexEncodePrefixed (utf8Bytes (cfg.pfx ++
            strReplace (strReplace cfg.data "[address]" cfg.address) i.match_id
              (Nat.repr i.id))),
          { cfg with id := some { i with id := i.id + 1 } }, ?_, ?_, ?_, ?_,
          rfl, rfl, rfl, rfl⟩
        · simp only [Config.get_hex_text, h0, Bool.false_eq_true, if_false,
            process_text_asc cfg i a hidv hsi (by omega)]
        · rw [hexDecode_hexEncode _ (utf8Bytes_lt _)]; rfl
        · unfold idOk at hid ⊢
          simp [h0, hidv, hsi] at hid ⊢
          omega
        · unfold hexOk at hhex ⊢
          simpa using hhex

/-- Building one batch of `k` entries under the invariants: it succeeds,
the nonce advances by exactly one per appended entry (so the entry
nonces are the contiguous range `[n, n + k)`), every entry carries the
builder's value, and the invariants survive with `k` expansions
consumed. -/
lemma build_batch_ok (mk : Nat → List Nat → Tx) (V : Nat)
    (hmkn : ∀ n d, (mk n d).nonce = n) (hmkv : ∀ n d, (mk n d).value = V) :
    ∀ (k r : Nat) (cfg : Config) (n : Nat), k ≤ r →
      idOk cfg r = true → hexOk cfg = true → n + k ≤ u256Max →
      ∃ txs cfg', build_batch mk k cfg n = some (txs, cfg', n + k)
        ∧ txs.map Tx.nonce = List.range' n k
        ∧ (∀ t ∈ txs, t.value = V)
        ∧ idOk cfg' (r - k) = true ∧ hexOk cfg' = true
        ∧ cfg'.data = cfg.data ∧ cfg'.count = cfg.count
        ∧ cfg'.batch_size = cfg.batch_size ∧ cfg'.interval = cfg.interval := by
  intro k
  induction k with
  | zero =>
    intro r cfg n _ hid hhex _
    exact ⟨[], cfg, by simp [build_batch], by simp, by simp, by simpa using hid, hhex,
      rfl, rfl, rfl, rfl⟩
  | succ k ih =>
    intro r cfg n hkr hid hhex hn
    have hr : r = (r - 1) + 1 := by omega
    obtain ⟨d, cfg1, hg, hdec, hid1, hhex1, hd1, hc1, hb1, hi1⟩ :=
      get_hex_text_step cfg (r - 1) (hr ▸ hid) hhex
    obtain ⟨bytes, hbytes⟩ := Option.isSome_iff_exists.mp hdec
    have hadd : checked_add256 n 1 = some (n + 1) := by
      unfold checked_add256
      rw [if_pos (by omega)]
    obtain ⟨txs, cfg', hb, hnon, hval, hid', hhex', hd', hc', hb', hi'⟩ :=
      ih (r - 1) cfg1 (n + 1) (by omega) hid1 hhex1 (by omega)
    refine ⟨mk n bytes :: txs, cfg', ?_, ?_, ?_, ?_, hhex', by rw [hd', hd1],
      by rw [hc', hc1], by rw [hb', hb1], by rw [hi', hi1]⟩
    · rw [build_batch, hg]
      dsimp only
      rw [hbytes]
      dsimp only
      rw [hadd]
      dsimp only
      rw [hb]
      dsimp only
      have : n + 1 + k = n + (k + 1) := by omega
      rw [this]
    · rw [List.map_cons, hmkn, hnon, List.range'_succ]
    · intro t ht
      rcases List.mem_cons.mp ht with rfl | ht
      · exact hmkv n bytes
      · exact hval t ht
    · have : r - (k + 1) = (r - 1) - k := by omega
      rw [this]
      exact hid'

lemma dispatches_append (l1 l2 : List Event) :
    dispatches (l1 ++ l2) = dispatches l1 ++ dispatches l2 := by
  induction l1 with
  | nil => rfl
  | cons e t ih => cases e <;> simp [dispatches, ih]

lemma dsProj_append (l1 l2 : List Event) :
    dsProj (l1 ++ l2) = dsProj l1 ++ dsProj l2 := by
  induction l1 with
  | nil => rfl
  | cons e t ih => cases e <;> simp [dsProj, ih]

lemma logsProj_append (l1 l2 : List Event) :
    logsProj (l1 ++ l2) = logsProj l1 ++ logsProj l2 := by
  induction l1 with
  | nil => rfl
  | cons e t ih => cases e <;> simp [logsProj, ih]

lemma dispatches_respLogs (s : Nat) : ∀ (k : Nat) (rs : List (Except String String)),
    dispatches (respLogs s k rs) = [] := by
  intro k rs
  induction rs generalizing k with
  | nil => rfl
  | cons r t ih => cases r <;> simp [respLogs, dispatches, ih]

lemma dsProj_respLogs (s : Nat) : ∀ (k : Nat) (rs : List (Except String String)),
    dsProj (respLogs s k rs) = [] := by
  intro k rs
  induction rs generalizing k with
  | nil => rfl
  | cons r t ih => cases r <;> simp [respLogs, dsProj, ih]

lemma logsProj_respLogs (s : Nat) : ∀ (k : Nat) (rs : List (Except String String)),
    logsProj (respLogs s k rs) = respLogs s k rs := by
  intro k rs
  induction rs generalizing k with
  | nil => rfl
  | cons r t ih => cases r <;> simp [respLogs, logsProj, ih]

/-- The ceiling division `(N + B − 1) / B` covers `N`. -/
lemma ceil_cover (N B : Nat) (hB : 1 ≤ B) : N ≤ ((N + B - 1) / B) * B := by
  have h := Nat.div_add_mod (N + B - 1) B
  have hm : (N + B - 1) % B < B := Nat.mod_lt _ hB
  have hx : ((N + B - 1) / B) * B = B * ((N + B - 1) / B) := Nat.mul_comm _ _
  rw [hx]
  omega

/-- Invariant lemma for the dispatcher loop over the remaining round
indices `[i, i+m)`: with every HTTP dispatch succeeding, the loop
completes, consumes exactly the remaining `N − i·B` transactions in `m`
groups of the prescribed sizes, assigns contiguous nonces, stamps every
transaction with the builder's value, and alternates dispatches with
sleeps of the configured interval. -/
lemma mint_dispatch_loop_ok (sign : Tx → String)
    (net : Nat → List String → Except String (List (Except String String)))
    (mk : Nat → List Nat → Tx) (bc V : Nat)
    (rs : Nat → List (Except String String))
    (hmkn : ∀ n d, (mk n d).nonce = n) (hmkv : ∀ n d, (mk n d).value = V)
    (hnet : ∀ i w, net i w = .ok (rs i)) (B N : Nat) :
    ∀ (m i : Nat) (cfg : Config) (n : Nat),
      cfg.batch_size = B → cfg.count = N →
      N ≤ (i + m) * B →
      idOk cfg (N - i * B) = true → hexOk cfg = true →
      n + (N - i * B) ≤ u256Max →
      ∃ evs, mint_dispatch_loop sign net mk bc (List.range' i m) cfg n
          = some (.ok (evs, n + (N - i * B)))
        ∧ (dispatches evs).length = m
        ∧ ((dispatches evs).map List.length).sum = N - i * B
        ∧ (allTxs evs).map Tx.nonce = List.range' n (N - i * B)
        ∧ (∀ t ∈ allTxs evs, t.value = V)
        ∧ dsProj evs = altBlocks cfg.interval (dispatches evs) := by
  intro m
  induction m with
  | zero =>
    intro i cfg n hBc hNc hcov hid hhex hn
    have hcov' : N ≤ i * B := by rw [Nat.add_zero] at hcov; exact hcov
    have hR : N - i * B = 0 := by omega
    rw [hR]
    exact ⟨[], by simp [mint_dispatch_loop], rfl, rfl, rfl, by simp [allTxs, dispatches],
      rfl⟩
  | succ m ih =>
    intro i cfg n hBc hNc hcov hid hhex hn
    rw [List.range'_succ]
    have h1 : (i + 1) * B = i * B + B := by ring
    have hcsle : min ((i + 1) * B) N - i * B ≤ N - i * B := by omega
    obtain ⟨txs, cfg1, hbb, hnon, hval, hid1, hhex1, hd1, hc1, hb1, hi1⟩ :=
      build_batch_ok mk V hmkn hmkv (min ((i + 1) * B) N - i * B) (N - i * B) cfg n
        hcsle hid hhex (by omega)
    have hlen : txs.length = min ((i + 1) * B) N - i * B := by
      have h2 := congrArg List.length hnon
      simpa using h2
    obtain ⟨evs', hloop', hdlen', hdsum', hnon', hval', hds'⟩ :=
      ih (i + 1) cfg1 (n + (min ((i + 1) * B) N - i * B))
        (by rw [hb1, hBc]) (by rw [hc1, hNc])
        (by have h2 : (i + 1 + m) * B = (i + (m + 1)) * B := by ring
            omega)
        (by have h2 : N - (i + 1) * B = (N - i * B) - (min ((i + 1) * B) N - i * B) := by
              omega
            rw [h2]
            exact hid1)
        hhex1
        (by omega)
    have hdisp : dispatches (.banner (i + 1) bc (min ((i + 1) * B) N - i * B) ::
          .dispatch txs :: (respLogs (i * B) 0 (rs i) ++ (.sleepEv cfg.interval :: evs')))
        = txs :: dispatches evs' := by
      simp [dispatches, dispatches_append, dispatches_respLogs]
    have hall : allTxs (.banner (i + 1) bc (min ((i + 1) * B) N - i * B) ::
          .dispatch txs :: (respLogs (i * B) 0 (rs i) ++ (.sleepEv cfg.interval :: evs')))
        = txs ++ allTxs evs' := by
      simp [allTxs, hdisp]
    refine ⟨.banner (i + 1) bc (min ((i + 1) * B) N - i * B) :: .dispatch txs ::
        (respLogs (i * B) 0 (rs i) ++ (.sleepEv cfg.interval :: evs')),
      ?_, ?_, ?_, ?_, ?_, ?_⟩
    · rw [mint_dispatch_loop]
      try dsimp only
      rw [hBc, hNc, hbb]
      try dsimp only
      rw [hnet i (txs.map sign)]
      try dsimp only
      rw [hloop']
      try dsimp only
      have h3 : n + (min ((i + 1) * B) N - i * B) + (N - (i + 1) * B) = n + (N - i * B) := by
        omega
      rw [h3]
    · rw [hdisp, List.length_cons, hdlen']
    · rw [hdisp, List.map_cons, List.sum_cons, hlen, hdsum']
      omega
    · rw [hall, List.map_append, hnon, hnon', List.range'_append_1]
      have h3 : (N - (i + 1) * B) + (min ((i + 1) * B) N - i * B) = N - i * B := by omega
      rw [h3]
    · intro t ht
      rw [hall] at ht
      rcases List.mem_append.mp ht with h | h
      · exact hval t h
      · exact hval' t h
    · rw [hdisp]
      show Event.dispatch txs ::
          dsProj (respLogs (i * B) 0 (rs i) ++ (.sleepEv cfg.interval :: evs'))
        = altBlocks cfg.interval (txs :: dispatches evs')
      rw [dsProj_append, dsProj_respLogs, List.nil_append]
      show Event.dispatch txs :: Event.sleepEv cfg.interval :: dsProj evs'
        = altBlocks cfg.interval (txs :: dispatches evs')
      rw [hds', hi1]
      rfl

lemma build_tx_main_nonce (chain_id : Nat) (sender toAddr : String) (gp : GasPrice)
    (gas_limit : Nat) : ∀ n d, (build_tx_main chain_id sender toAddr gp gas_limit n d).nonce = n := by
  intro n d
  unfold build_tx_main
  split <;> rfl

lemma build_tx_main_value (chain_id : Nat) (sender toAddr : String) (gp : GasPrice)
    (gas_limit : Nat) : ∀ n d, (build_tx_main chain_id sender toAddr gp gas_limit n d).value = 0 := by
  intro n d
  unfold build_tx_main
  split <;> rfl

lemma build_tx_dispatch_nonce (chain_id : Nat) (sender toAddr : String) (gp : GasPrice)
    (gas_limit : Nat) :
    ∀ n d, (build_tx_dispatch chain_id sender toAddr gp gas_limit n d).nonce = n := by
  intro n d
  unfold build_tx_dispatch
  split <;> rfl

lemma build_tx_dispatch_value (chain_id : Nat) (sender toAddr : String) (gp : GasPrice)
    (gas_limit : Nat) :
    ∀ n d, (build_tx_dispatch chain_id sender toAddr gp gas_limit n d).value = gp.value := by
  intro n d
  unfold build_tx_dispatch
  split <;> rfl

/-- Whole-run lemma for the spec-modelled dispatcher: when every HTTP
dispatch succeeds, the run completes with the nonce advanced by the
effective count, issuing `⌈count / batch_size⌉` groups whose sizes sum
to the count, with contiguous ascending nonces, every transaction
carrying `gas_price.value`, and a sleep after every group. -/
lemma mint_dispatch_ok (sign : Tx → String)
    (net : Nat → List String → Except String (List (Except String String)))
    (chain_id : Nat) (sender toAddr : String) (gp : GasPrice) (cfg : Config) (n0 : Nat)
    (rs : Nat → List (Except String String))
    (hB : 1 ≤ cfg.batch_size)
    (hov : cfg.count + cfg.batch_size ≤ u64Max)
    (hid : idOk cfg cfg.count = true) (hhex : hexOk cfg = true)
    (hn : n0 + cfg.count ≤ u256Max)
    (hnet : ∀ i w, net i w = .ok (rs i)) :
    ∃ evs, mint_dispatch sign net chain_id sender toAddr gp cfg n0
        = some (.ok (evs, n0 + cfg.count))
      ∧ (dispatches evs).length = (cfg.count + cfg.batch_size - 1) / cfg.batch_size
      ∧ ((dispatches evs).map List.length).sum = cfg.count
      ∧ (allTxs evs).map Tx.nonce = List.range' n0 cfg.count
      ∧ (∀ t ∈ allTxs evs, t.value = gp.value)
      ∧ dsProj evs = altBlocks cfg.interval (dispatches evs) := by
  have hadd : checked_add cfg.count cfg.batch_size = some (cfg.count + cfg.batch_size) := by
    unfold checked_add
    rw [if_pos hov]
  have hsub : checked_sub (cfg.count + cfg.batch_size) 1
      = some (cfg.count + cfg.batch_size - 1) := by
    unfold checked_sub
    rw [if_pos (by omega)]
  obtain ⟨evs, h1, h2, h3, h4, h5, h6⟩ :=
    mint_dispatch_loop_ok sign net
      (build_tx_dispatch chain_id sender toAddr gp cfg.gas_limit)
      ((cfg.count + cfg.batch_size - 1) / cfg.batch_size) gp.value rs
      (build_tx_dispatch_nonce chain_id sender toAddr gp cfg.gas_limit)
      (build_tx_dispatch_value chain_id sender toAddr gp cfg.gas_limit)
      hnet cfg.batch_size cfg.count
      ((cfg.count + cfg.batch_size - 1) / cfg.batch_size) 0 cfg n0
      rfl rfl
      (by simpa using ceil_cover cfg.count cfg.batch_size hB)
      (by simpa using hid) hhex (by simpa using hn)
  refine ⟨evs, ?_, h2, by simpa using h3, by simpa using h4, h5, h6⟩
  rw [mint_dispatch, hadd]
  dsimp only
  rw [hsub]
  dsimp only
  rw [if_neg (by omega), List.range_eq_range', h1]
  have h0 : cfg.count - 0 * cfg.batch_size = cfg.count := by simp
  rw [h0]

/-- C2: the dispatcher issues exactly `⌈N / B⌉` batch groups (computed
as `(N + B − 1) / B`) whose sizes sum to `N = effective count`, and the
nonces of the signed transactions across the whole run are exactly the
contiguous ascending range `[nonce₀, nonce₀ + N − 1]` — `List.range' n0
N` — one nonce per appended entry, with no gaps or duplicates.  The
dispatcher reading `config.batch_size` is modelled from the spec (§4.4);
src/src/main.rs carries the same loop with the group size fixed at
100. -/
theorem dispatcher_batch_partition_and_nonces (sign : Tx → String)
    (net : Nat → List String → Except String (List (Except String String)))
    (chain_id : Nat) (sender toAddr : String) (gp : GasPrice) (cfg : Config) (n0 : Nat)
    (rs : Nat → List (Except String String))
    (hB : 1 ≤ cfg.batch_size)
    (hov : cfg.count + cfg.batch_size ≤ u64Max)
    (hid : idOk cfg cfg.count = true) (hhex : hexOk cfg = true)
    (hn : n0 + cfg.count ≤ u256Max)
    (hnet : ∀ i w, net i w = .ok (rs i)) :
    ∃ evs, mint_dispatch sign net chain_id sender toAddr gp cfg n0
        = some (.ok (evs, n0 + cfg.count))
      ∧ (dispatches evs).length = (cfg.count + cfg.batch_size - 1) / cfg.batch_size
      ∧ ((dispatches evs).map List.length).sum = cfg.count
      ∧ (allTxs evs).map Tx.nonce = List.range' n0 cfg.count := by
  obtain ⟨evs, h1, h2, h3, h4, -, -⟩ :=
    mint_dispatch_ok sign net chain_id sender toAddr gp cfg n0 rs hB hov hid hhex hn hnet
  exact ⟨evs, h1, h2, h3, h4⟩

/-- C5: after dispatching each batch group — the final group included —
the dispatcher sleeps for the configured `interval` seconds before
proceeding: in the trace, dispatches and sleeps of `cfg.interval`
seconds strictly alternate, ending with a sleep.  The sleeping
dispatcher is modelled from the spec (§4.4, §9 "trailing sleep"):
`interval` is declared in the lib.rs `Config` and its consumer is not
under src/. -/
theorem dispatcher_sleeps_after_every_group (sign : Tx → String)
    (net : Nat → List String → Except String (List (Except String String)))
    (chain_id : Nat) (sender toAddr : String) (gp : GasPrice) (cfg : Config) (n0 : Nat)
    (rs : Nat → List (Except String String))
    (hB : 1 ≤ cfg.batch_size)
    (hov : cfg.count + cfg.batch_size ≤ u64Max)
    (hid : idOk cfg cfg.count = true) (hhex : hexOk cfg = true)
    (hn : n0 + cfg.count ≤ u256Max)
    (hnet : ∀ i w, net i w = .ok (rs i)) :
    ∃ evs, mint_dispatch sign net chain_id sender toAddr gp cfg n0
        = some (.ok (evs, n0 + cfg.count))
      ∧ dsProj evs = altBlocks cfg.interval (dispatches evs)
      ∧ (dispatches evs).length = (cfg.count + cfg.batch_size - 1) / cfg.batch_size := by
  obtain ⟨evs, h1, h2, -, -, -, h6⟩ :=
    mint_dispatch_ok sign net chain_id sender toAddr gp cfg n0 rs hB hov hid hhex hn hnet
  exact ⟨evs, h1, h6, h2⟩

lemma init_gas_price_value (cfg : Config) (gp : GasPrice)
    (h : cfg.init_gas_price = some gp) :
    parse_units_pow 18 cfg.value = some gp.value := by
  unfold Config.init_gas_price at h
  rcases h9 : parse_units_pow 9 cfg.max_fee_per_gas with _ | mf <;> rw [h9] at h <;>
    dsimp only at h
  · exact Option.noConfusion h
  · rcases hp : (match cfg.max_priority_fee_per_gas with
        | some p => parse_units_pow 9 p
        | none => some 0) with _ | mp <;> rw [hp] at h <;> dsimp only at h
    · exact Option.noConfusion h
    · rcases hv : parse_units_pow 18 cfg.value with _ | v <;> rw [hv] at h <;>
        dsimp only at h
      · exact Option.noConfusion h
      · obtain rfl : (⟨cfg.max_priority_fee_per_gas.isSome, mf, mp, v⟩ : GasPrice) = gp :=
          Option.some.inj h
        rfl

lemma parse_units_pow_18_eq (v : ℚ) (w : Nat) (hv : 0 ≤ v)
    (h : parse_units_pow 18 v = some w) : (w : ℚ) = v * 10 ^ 18 := by
  unfold parse_units_pow at h
  split at h
  case isFalse => exact Option.noConfusion h
  case isTrue hdvd =>
    dsimp only at h
    have hnum : 0 ≤ v.num := Rat.num_nonneg.mpr hv
    have hpos : (0 : Int) ≤ v.num * ((10 ^ 18 / v.den : Nat) : Int) :=
      mul_nonneg hnum (Int.ofNat_nonneg _)
    split at h
    case isTrue h0 =>
      have hw : w = (v.num * ((10 ^ 18 / v.den : Nat) : Int)).toNat := (Option.some.inj h).symm
      have hden0 : ((v.den : ℚ)) ≠ 0 := by
        exact_mod_cast v.den_nz
      have hnd : (v.num : ℚ) / (v.den : ℚ) = v := Rat.num_div_den v
      have hZ : (w : ℤ) * (v.den : ℤ) = v.num * (10 : ℤ) ^ 18 := by
        rw [hw, Int.toNat_of_nonneg hpos]
        have h4 : ((10 ^ 18 / v.den : Nat) : ℤ) * (v.den : ℤ) = (10 : ℤ) ^ 18 := by
          exact_mod_cast Nat.div_mul_cancel hdvd
        calc v.num * ((10 ^ 18 / v.den : Nat) : ℤ) * (v.den : ℤ)
            = v.num * (((10 ^ 18 / v.den : Nat) : ℤ) * (v.den : ℤ)) := by ring
          _ = v.num * (10 : ℤ) ^ 18 := by rw [h4]
      have hcast : ((w : ℚ)) * (v.den : ℚ) = (v.num : ℚ) * (10 : ℚ) ^ 18 := by
        exact_mod_cast hZ
      rw [← hnd]
      field_simp
      linear_combination hcast
    case isFalse h0 =>
      split at h
      case isTrue h1 => omega
      case isFalse => exact Option.noConfusion h

/-- C6: every built transaction — legacy or EIP-1559 — carries a value
field equal to the configured decimal-ether amount converted to integer
wei by multiplying by 10¹⁸ (the `parse_units(value, "ether")` conversion
of lib.rs `init_gas_price`; the builder consuming `gas_price.value` is
modelled from the spec §4.3, src/src/main.rs's older duplicate passes a
literal 0). -/
theorem transactions_carry_value_in_wei (sign : Tx → String)
    (net : Nat → List String → Except String (List (Except String String)))
    (chain_id : Nat) (sender toAddr : String) (gp : GasPrice) (cfg : Config) (n0 : Nat)
    (rs : Nat → List (Except String String))
    (hgp : cfg.init_gas_price = some gp) (hv : 0 ≤ cfg.value)
    (hB : 1 ≤ cfg.batch_size)
    (hov : cfg.count + cfg.batch_size ≤ u64Max)
    (hid : idOk cfg cfg.count = true) (hhex : hexOk cfg = true)
    (hn : n0 + cfg.count ≤ u256Max)
    (hnet : ∀ i w, net i w = .ok (rs i)) :
    ∃ evs, mint_dispatch sign net chain_id sender toAddr gp cfg n0
        = some (.ok (evs, n0 + cfg.count))
      ∧ ∀ t ∈ allTxs evs, (t.value : ℚ) = cfg.value * 10 ^ 18 := by
  obtain ⟨evs, h1, -, -, -, h5, -⟩ :=
    mint_dispatch_ok sign net chain_id sender toAddr gp cfg n0 rs hB hov hid hhex hn hnet
  have hw := parse_units_pow_18_eq cfg.value gp.value hv (init_gas_price_value cfg gp hgp)
  refine ⟨evs, h1, ?_⟩
  intro t ht
  rw [h5 t ht, hw]

/-- A fixed signing oracle for concrete runs. -/
def sigW : Tx → String := fun _ => "0xsigned"

/-- A network oracle whose every batch succeeds with an empty response list. -/
def netOkW : Nat → List String → Except String (List (Except String String)) :=
  fun _ _ => .ok []

/-- The per-round responses of `netOkW`. -/
def rsOkW : Nat → List (Except String String) := fun _ => []

/-- Sample configuration for the dispatcher witnesses: count 5, batch
size 2, interval 1 s, ascending marker `[3-9]`, 1 ether value. -/
def cfgC2 : Config :=
  { pfx := "data:,", rpc_url := "r", private_key := "k", address := "0xabc",
    to_address := some "0xdef", max_fee_per_gas := 2, max_priority_fee_per_gas := some 1,
    gas_limit := 50000, count := 5, data := "n[3-9]x", hex_text := none,
    id := some ⟨3, some 3, some 9, "[3-9]"⟩, value := 1, batch_size := 2, interval := 1 }

/-- The gas price derived from `cfgC2` (EIP-1559, 2 gwei fee, 1 gwei
priority, 1 ether value in wei). -/
def gpW : GasPrice := ⟨true, 2000000000, 1000000000, 1000000000000000000⟩

/-- Witness for C2: count 5 with batch size 2 from nonce 7 gives 3
groups of sizes 2, 2, 1 and nonces 7…11. -/
theorem dispatcher_batch_partition_and_nonces_witness :
    ∃ evs, mint_dispatch sigW netOkW 1 "s" "t" gpW cfgC2 7
        = some (.ok (evs, 7 + cfgC2.count))
      ∧ (dispatches evs).length = (cfgC2.count + cfgC2.batch_size - 1) / cfgC2.batch_size
      ∧ ((dispatches evs).map List.length).sum = cfgC2.count
      ∧ (allTxs evs).map Tx.nonce = List.range' 7 cfgC2.count :=
  dispatcher_batch_partition_and_nonces sigW netOkW 1 "s" "t" gpW cfgC2 7 rsOkW
    (by decide) (by decide) (by decide) (by decide) (by decide) (fun _ _ => rfl)

/-- Witness for C5: the same run's trace alternates its 3 dispatches
with sleeps of 1 second, ending with a sleep. -/
theorem dispatcher_sleeps_after_every_group_witness :
    ∃ evs, mint_dispatch sigW netOkW 1 "s" "t" gpW cfgC2 7
        = some (.ok (evs, 7 + cfgC2.count))
      ∧ dsProj evs = altBlocks cfgC2.interval (dispatches evs)
      ∧ (dispatches evs).length = (cfgC2.count + cfgC2.batch_size - 1) / cfgC2.batch_size :=
  dispatcher_sleeps_after_every_group sigW netOkW 1 "s" "t" gpW cfgC2 7 rsOkW
    (by decide) (by decide) (by decide) (by decide) (by decide) (fun _ _ => rfl)

/-- Witness for C6: with 1 ether configured, every transaction in the
run carries 10¹⁸ wei. -/
theorem transactions_carry_value_in_wei_witness :
    ∃ evs, mint_dispatch sigW netOkW 1 "s" "t" gpW cfgC2 7
        = some (.ok (evs, 7 + cfgC2.count))
      ∧ ∀ t ∈ allTxs evs, (t.value : ℚ) = cfgC2.value * 10 ^ 18 :=
  transactions_carry_value_in_wei sigW netOkW 1 "s" "t" gpW cfgC2 7 rsOkW
    (by decide) (by decide) (by decide) (by decide) (by decide) (by decide) (by decide)
    (fun _ _ => rfl)

/-! ## The src/src/main.rs mint loop: response draining and failure policy -/

/-- Invariant lemma for the round loop of `mint` (src/src/main.rs, group
size 100): with every HTTP dispatch succeeding, the loop completes with
the nonce advanced by the remaining count — regardless of per-entry RPC
errors in the responses — dispatching one batch per round, and the
response log lines are exactly the per-round `respLogs` blocks in
request order. -/
lemma mint_loop_ok (sign : Tx → String)
    (net : Nat → List String → Except String (List (Except String String)))
    (mk : Nat → List Nat → Tx) (bc V : Nat)
    (rs : Nat → List (Except String String))
    (hmkn : ∀ n d, (mk n d).nonce = n) (hmkv : ∀ n d, (mk n d).value = V)
    (hnet : ∀ i w, net i w = .ok (rs i)) (N : Nat) :
    ∀ (m i : Nat) (cfg : Config) (n : Nat),
      cfg.count = N →
      N ≤ (i + m) * 100 →
      idOk cfg (N - i * 100) = true → hexOk cfg = true →
      n + (N - i * 100) ≤ u256Max →
      ∃ evs, mint_loop sign net mk bc (List.range' i m) cfg n
          = some (.ok (evs, n + (N - i * 100)))
        ∧ (dispatches evs).length = m
        ∧ logsProj evs = (List.range' i m).flatMap (fun j => respLogs (j * 100) 0 (rs j)) := by
  intro m
  induction m with
  | zero =>
    intro i cfg n hNc hcov hid hhex hn
    have hcov' : N ≤ i * 100 := by rw [Nat.add_zero] at hcov; exact hcov
    have hR : N - i * 100 = 0 := by omega
    rw [hR]
    exact ⟨[], by simp [mint_loop], rfl, rfl⟩
  | succ m ih =>
    intro i cfg n hNc hcov hid hhex hn
    rw [List.range'_succ]
    have h1 : (i + 1) * 100 = i * 100 + 100 := by ring
    have hcsle : min ((i + 1) * 100) N - i * 100 ≤ N - i * 100 := by omega
    obtain ⟨txs, cfg1, hbb, hnon, hval, hid1, hhex1, hd1, hc1, hb1, hi1⟩ :=
      build_batch_ok mk V hmkn hmkv (min ((i + 1) * 100) N - i * 100) (N - i * 100) cfg n
        hcsle hid hhex (by omega)
    obtain ⟨evs', hloop', hdlen', hlogs'⟩ :=
      ih (i + 1) cfg1 (n + (min ((i + 1) * 100) N - i * 100))
        (by rw [hc1, hNc])
        (by have h2 : (i + 1 + m) * 100 = (i + (m + 1)) * 100 := by ring
            omega)
        (by have h2 : N - (i + 1) * 100
                = (N - i * 100) - (min ((i + 1) * 100) N - i * 100) := by omega
            rw [h2]
            exact hid1)
        hhex1 (by omega)
    refine ⟨.banner (i + 1) bc (min ((i + 1) * 100) N - i * 100) :: .dispatch txs ::
        (respLogs (i * 100) 0 (rs i) ++ evs'), ?_, ?_, ?_⟩
    · rw [mint_loop]
      try dsimp only
      rw [hNc, hbb]
      try dsimp only
      rw [hnet i (txs.map sign)]
      try dsimp only
      rw [hloop']
      try dsimp only
      have h3 : n + (min ((i + 1) * 100) N - i * 100) + (N - (i + 1) * 100)
          = n + (N - i * 100) := by omega
      rw [h3]
    · have hd : dispatches (Event.banner (i + 1) bc (min ((i + 1) * 100) N - i * 100) ::
          Event.dispatch txs :: (respLogs (i * 100) 0 (rs i) ++ evs'))
          = txs :: dispatches evs' := by
        simp [dispatches, dispatches_append, dispatches_respLogs]
      rw [hd, List.length_cons, hdlen']
    · have hl : logsProj (Event.banner (i + 1) bc (min ((i + 1) * 100) N - i * 100) ::
          Event.dispatch txs :: (respLogs (i * 100) 0 (rs i) ++ evs'))
          = respLogs (i * 100) 0 (rs i) ++ logsProj evs' := by
        show logsProj (respLogs (i * 100) 0 (rs i) ++ evs') = _
        rw [logsProj_append, logsProj_respLogs]
      rw [hl, hlogs', List.flatMap_cons]

/-- Whole-run lemma for `mint`: with every HTTP dispatch succeeding, the
run completes, the client-side nonce ends at `n0 + count` — never rolled
back, whatever the per-entry outcomes — all `⌈count / 100⌉` batches are
dispatched, and every response entry is drained and logged in request
order with its 1-based absolute index. -/
lemma mint_ok (sign : Tx → String)
    (net : Nat → List String → Except String (List (Except String String)))
    (chain_id : Nat) (sender toAddr : String) (gp : GasPrice) (cfg : Config) (n0 : Nat)
    (rs : Nat → List (Except String String))
    (hov : cfg.count + 100 ≤ u64Max)
    (hid : idOk cfg cfg.count = true) (hhex : hexOk cfg = true)
    (hn : n0 + cfg.count ≤ u256Max)
    (hnet : ∀ i w, net i w = .ok (rs i)) :
    ∃ evs, mint sign net chain_id sender toAddr gp cfg n0
        = some (.ok (evs, n0 + cfg.count))
      ∧ (dispatches evs).length = (cfg.count + 100 - 1) / 100
      ∧ logsProj evs = (List.range ((cfg.count + 100 - 1) / 100)).flatMap
          (fun j => respLogs (j * 100) 0 (rs j)) := by
  have hadd : checked_add cfg.count 100 = some (cfg.count + 100) := by
    unfold checked_add
    rw [if_pos hov]
  have hsub : checked_sub (cfg.count + 100) 1 = some (cfg.count + 100 - 1) := by
    unfold checked_sub
    rw [if_pos (by omega)]
  obtain ⟨evs, h1, h2, h3⟩ :=
    mint_loop_ok sign net (build_tx_main chain_id sender toAddr gp cfg.gas_limit)
      ((cfg.count + 100 - 1) / 100) 0 rs
      (build_tx_main_nonce chain_id sender toAddr gp cfg.gas_limit)
      (build_tx_main_value chain_id sender toAddr gp cfg.gas_limit)
      hnet cfg.count ((cfg.count + 100 - 1) / 100) 0 cfg n0
      rfl
      (by simpa using ceil_cover cfg.count 100 (by omega))
      (by simpa using hid) hhex (by simpa using hn)
  refine ⟨evs, ?_, h2, by simpa [List.range_eq_range'] using h3⟩
  rw [mint, hadd]
  try dsimp only
  rw [hsub]
  try dsimp only
  rw [List.range_eq_range', h1]
  have h0 : cfg.count - 0 * 100 = cfg.count := by simp
  rw [h0]

/-- An abort of the round loop can only be caused by the HTTP dispatch
itself returning an error, which is propagated verbatim. -/
lemma mint_loop_error (sign : Tx → String)
    (net : Nat → List String → Except String (List (Except String String)))
    (mk : Nat → List Nat → Tx) (bc : Nat) :
    ∀ (rounds : List Nat) (cfg : Config) (n : Nat) (er : String),
      mint_loop sign net mk bc rounds cfg n = some (.error er) →
      ∃ i w, net i w = .error er := by
  intro rounds
  induction rounds with
  | nil =>
    intro cfg n er h
    exact absurd h (by simp [mint_loop])
  | cons i rest ih =>
    intro cfg n er h
    rw [mint_loop] at h
    try dsimp only at h
    rcases hbb : build_batch mk (min ((i + 1) * 100) cfg.count - i * 100) cfg n
        with _ | ⟨txs, cfg', n'⟩ <;> rw [hbb] at h <;> try dsimp only at h
    · exact Option.noConfusion h
    · rcases hne : net i (txs.map sign) with e2 | rsp <;> rw [hne] at h <;>
        try dsimp only at h
      · have h2 : e2 = er := Except.error.inj (Option.some.inj h)
        exact ⟨i, txs.map sign, by rw [hne, h2]⟩
      · rcases hrec : mint_loop sign net mk bc rest cfg' n' with _ | res <;>
          rw [hrec] at h <;> try dsimp only at h
        · exact Option.noConfusion h
        · rcases res with e2 | pr
          · try dsimp only at h
            have h2 : e2 = er := Except.error.inj (Option.some.inj h)
            exact ih cfg' n' er (by rw [hrec, h2])
          · obtain ⟨evs, nF⟩ := pr
            try dsimp only at h
            exact absurd (Option.some.inj h) (by simp)

/-- An abort of `mint` can only be caused by an HTTP dispatch failure. -/
lemma mint_error (sign : Tx → String)
    (net : Nat → List String → Except String (List (Except String String)))
    (chain_id : Nat) (sender toAddr : String) (gp : GasPrice) (cfg : Config) (n0 : Nat)
    (er : String)
    (h : mint sign net chain_id sender toAddr gp cfg n0 = some (.error er)) :
    ∃ i w, net i w = .error er := by
  rw [mint] at h
  rcases ha : checked_add cfg.count 100 with _ | t <;> rw [ha] at h <;> try dsimp only at h
  · exact Option.noConfusion h
  · rcases hs : checked_sub t 1 with _ | t2 <;> rw [hs] at h <;> try dsimp only at h
    · exact Option.noConfusion h
    · exact mint_loop_error sign net _ _ _ cfg n0 er h

/-- C7 (amended): when a batch HTTP dispatch succeeds but individual
entries of the batch response are RPC errors, each such entry is logged
at ERROR level (not warning — see the counterexample) and the campaign
continues: all responses are drained in request order with their 1-based
absolute indices (`respLogs` maps an `Except.error` entry to a
`LogLevel.error` log line), subsequent batches are still dispatched, the
client-side nonce ends at `n0 + count` without rollback; and only a
failure of the HTTP dispatch itself aborts the run (an abort implies the
network oracle returned that very error). -/
theorem mint_entry_errors_logged_and_run_continues :
    (∀ (sign : Tx → String)
      (net : Nat → List String → Except String (List (Except String String)))
      (chain_id : Nat) (sender toAddr : String) (gp : GasPrice) (cfg : Config) (n0 : Nat)
      (rs : Nat → List (Except String String)),
      cfg.count + 100 ≤ u64Max → idOk cfg cfg.count = true → hexOk cfg = true →
      n0 + cfg.count ≤ u256Max → (∀ i w, net i w = .ok (rs i)) →
      ∃ evs, mint sign net chain_id sender toAddr gp cfg n0
          = some (.ok (evs, n0 + cfg.count))
        ∧ (dispatches evs).length = (cfg.count + 100 - 1) / 100
        ∧ logsProj evs = (List.range ((cfg.count + 100 - 1) / 100)).flatMap
            (fun j => respLogs (j * 100) 0 (rs j)))
    ∧ (∀ (sign : Tx → String)
      (net : Nat → List String → Except String (List (Except String String)))
      (chain_id : Nat) (sender toAddr : String) (gp : GasPrice) (cfg : Config) (n0 : Nat)
      (er : String),
      mint sign net chain_id sender toAddr gp cfg n0 = some (.error er) →
      ∃ i w, net i w = .error er) := by
  constructor
  · intro sign net chain_id sender toAddr gp cfg n0 rs hov hid hhex hn hnet
    exact mint_ok sign net chain_id sender toAddr gp cfg n0 rs hov hid hhex hn hnet
  · intro sign net chain_id sender toAddr gp cfg n0 er h
    exact mint_error sign net chain_id sender toAddr gp cfg n0 er h

/-- Sample configuration for the `mint` runs: a single plain-text
payload transaction. -/
def cfgC7 : Config :=
  { pfx := "data:,", rpc_url := "r", private_key := "k", address := "0xabc",
    to_address := none, max_fee_per_gas := 1, max_priority_fee_per_gas := none,
    gas_limit := 50000, count := 1, data := "a", hex_text := none, id := none,
    value := 0, batch_size := 100, interval := 0 }

/-- A network oracle whose one response entry is an RPC error. -/
def netErrW : Nat → List String → Except String (List (Except String String)) :=
  fun _ _ => .ok [.error "boom"]

/-- The per-round responses of `netErrW`. -/
def rsErrW : Nat → List (Except String String) := fun _ => [.error "boom"]

/-- A network oracle whose HTTP dispatch itself fails. -/
def netHttpW : Nat → List String → Except String (List (Except String String)) :=
  fun _ _ => .error "conn"

/-- The legacy gas price of the `mint` runs. -/
def gpMainW : GasPrice := ⟨false, 5, 0, 0⟩

/-- C7 (counterexample to the claim as stated): a per-entry RPC error in
a successfully dispatched batch is logged at ERROR level and not as a
warning, while the run still completes with the nonce advanced. -/
theorem mint_entry_error_logged_as_error_not_warning :
    mint sigW netErrW 1 "s" "t" gpMainW cfgC7 0
      = some (.ok ([.banner 1 1 1,
          .dispatch [.legacy 1 "s" "t" 0 0 [100, 97, 116, 97, 58, 44, 97] 50000 5],
          .respLog .error 1], 1))
    ∧ (Event.respLog .warn 1) ∉
        [Event.banner 1 1 1,
          Event.dispatch [Tx.legacy 1 "s" "t" 0 0 [100, 97, 116, 97, 58, 44, 97] 50000 5],
          Event.respLog .error 1] :=
  ⟨by decide, by decide⟩

/-- Witness for C7: the error-entry run completes with final nonce 1 and
its one response logged; and a run aborted with `some (.error "conn")`
implies the network oracle returned exactly that HTTP error. -/
theorem mint_entry_errors_logged_and_run_continues_witness :
    (∃ evs, mint sigW netErrW 1 "s" "t" gpMainW cfgC7 0
        = some (.ok (evs, 0 + cfgC7.count))
      ∧ (dispatches evs).length = (cfgC7.count + 100 - 1) / 100
      ∧ logsProj evs = (List.range ((cfgC7.count + 100 - 1) / 100)).flatMap
          (fun j => respLogs (j * 100) 0 (rsErrW j)))
    ∧ (∃ i w, netHttpW i w = Except.error "conn") :=
  ⟨mint_entry_errors_logged_and_run_continues.1 sigW netErrW 1 "s" "t" gpMainW cfgC7 0 rsErrW
      (by decide) (by decide) (by decide) (by decide) (fun _ _ => rfl),
   mint_entry_errors_logged_and_run_continues.2 sigW netHttpW 1 "s" "t" gpMainW cfgC7 0 "conn"
      (by decide)⟩

end EvmInk
